import Mathlib

/-!
Verification of the blackjack table engine in `src/bot.py`.

The definitions below are a shallow embedding of the game-logic slice of the
source: the card shoe (`CardSystem.get_card`), hand evaluation
(`GameTable._hand_value` / `TablePlayer.value`), the split-eligibility rule
(`can_split_cards`), the table state machine (`GameTable.start_game`,
`process_turns`, `play_dealer`), the command handlers (`cb_hit`, `cb_stand`,
`cb_double`, `cb_split`, the join handlers) plus the timeout sweep
(`check_timeouts_loop`) and round settlement (`finalize_game_db`).

Randomness (`random.shuffle`) is modelled by an explicit permutation
parameter `σ : List Card → List Card`; wall-clock time by an explicit
`now : Nat` parameter; the persistent balance store by explicit `bal : Nat`
arguments at the command boundary (the source consults the database there).
Python `list.pop()` removes the last element, so drawing takes the last
element of the shoe list.
-/

namespace Blackjack

inductive Rank where
  | r2 | r3 | r4 | r5 | r6 | r7 | r8 | r9 | r10 | J | Q | K | A
deriving DecidableEq, Repr

inductive Suit where
  | S | H | D | C
deriving DecidableEq, Repr

abbrev Card := Rank × Suit

/-- `10 if c[0] in "JQK" else 11 if c[0] == "A" else int(c[0])` -/
def rankValue : Rank → Nat
  | .r2 => 2 | .r3 => 3 | .r4 => 4 | .r5 => 5 | .r6 => 6 | .r7 => 7
  | .r8 => 8 | .r9 => 9 | .r10 => 10 | .J => 10 | .Q => 10 | .K => 10
  | .A => 11

def RANKS : List Rank :=
  [.r2, .r3, .r4, .r5, .r6, .r7, .r8, .r9, .r10, .J, .Q, .K, .A]

def SUITS : List Suit := [.S, .H, .D, .C]

def DECKS_COUNT : Nat := 5

def RESHUFFLE_THRESHOLD : Nat := 60

def MAX_PLAYERS : Nat := 3

def TURN_TIMEOUT : Nat := 30

/-- `base_deck = [(r, s) for r in RANKS for s in SUITS]` -/
def baseDeck : List Card := RANKS.flatMap fun r => SUITS.map fun s => (r, s)

/-- `self.shoe = base_deck * DECKS_COUNT` (before `random.shuffle`). -/
def fullPool : List Card := (List.replicate DECKS_COUNT baseDeck).flatten

/-- Junk value for the (unreachable) draw-from-empty-list case. -/
def defaultCard : Card := (Rank.r2, Suit.S)

/-- `CardSystem.get_card`: rebuild-and-shuffle when below the penetration
threshold, then pop one card from the end; returns
`(card, reshuffled, new shoe)`.  `σ` stands for `random.shuffle`. -/
def drawCard (σ : List Card → List Card) (shoe : List Card) :
    Card × Bool × List Card :=
  if shoe.length < RESHUFFLE_THRESHOLD then
    let ns := σ fullPool
    (ns.getLastD defaultCard, true, ns.dropLast)
  else
    (shoe.getLastD defaultCard, false, shoe.dropLast)

def isAce (c : Card) : Bool := c.1 == Rank.A

/-- First line of `_hand_value`: raw sum with every ace counted as 11. -/
def rawSum (h : List Card) : Nat := (h.map fun c => rankValue c.1).sum

/-- `aces = sum(1 for c in hand if c[0] == "A")` -/
def aceCount (h : List Card) : Nat := (h.filter isAce).length

/-- `while val > 21 and aces: val -= 10; aces -= 1` -/
def reduceAces : Nat → Nat → Nat
  | v, 0 => v
  | v, a + 1 => if 21 < v then reduceAces (v - 10) a else v

/-- `GameTable._hand_value` (identical to `TablePlayer.value`). -/
def handValue (h : List Card) : Nat := reduceAces (rawSum h) (aceCount h)

/-- `r in {"10", "J", "Q", "K"}` -/
def tenLike (r : Rank) : Bool := r == .r10 || r == .J || r == .Q || r == .K

/-- `can_split_cards`: equal ranks, or both cards worth ten. -/
def canSplitCards (c1 c2 : Card) : Bool :=
  c1.1 == c2.1 || (tenLike c1.1 && tenLike c2.1)

/-- Hand statuses, the string values used by the source:
`"waiting"`, `"playing"`, `"stand"`, `"bust"`, `"blackjack"`. -/
inductive HStatus where
  | waiting | playing | stand | bust | blackjack
deriving DecidableEq, Repr

/-- `last_action` tags (`"hit"`, `"stand"`, `"double"`, `"split"`). -/
inductive PAction where
  | hit | stand | double | split
deriving DecidableEq, Repr

/-- Table states: `"waiting"`, `"player_turn"`, `"dealer_turn"`, `"finished"`. -/
inductive TState where
  | waiting | player_turn | dealer_turn | finished
deriving DecidableEq, Repr

/-- `TablePlayer`.  `hands`, `_bets` and `_statuses` are parallel lists; every
constructor in the source keeps them the same length. -/
structure TablePlayer where
  userId : Nat
  originalBet : Nat
  hands : List (List Card)
  bets : List Nat
  statuses : List HStatus
  currentHandIndex : Nat
  isReady : Bool
  startBalance : Nat
  lastAction : Option PAction
deriving DecidableEq, Repr

/-- The `hand` property: `self.hands[self.current_hand_index]`. -/
def TablePlayer.hand (p : TablePlayer) : List Card :=
  p.hands.getD p.currentHandIndex []

/-- The `bet` property: `self._bets[self.current_hand_index]`. -/
def TablePlayer.bet (p : TablePlayer) : Nat :=
  p.bets.getD p.currentHandIndex 0

/-- `TablePlayer.has_active_hand`. -/
def hasActiveHand (p : TablePlayer) : Bool :=
  p.statuses.any fun s => s == .playing

/-- Loop body of `TablePlayer.first_active_hand_index`. -/
def firstActiveAux : List HStatus → Nat → Option Nat
  | [], _ => none
  | s :: rest, i => if s == .playing then some i else firstActiveAux rest (i + 1)

/-- `TablePlayer.first_active_hand_index`. -/
def firstActiveHandIndex (p : TablePlayer) : Option Nat :=
  firstActiveAux p.statuses 0

/-- In-place status write `player.status = v` (acts on the current hand). -/
def setStatus (p : TablePlayer) (v : HStatus) : TablePlayer :=
  { p with statuses := p.statuses.set p.currentHandIndex v }

/-- In-place card append `player.hand.append(c)` (acts on the current hand). -/
def appendCard (p : TablePlayer) (c : Card) : TablePlayer :=
  { p with hands := p.hands.set p.currentHandIndex (p.hand ++ [c]) }

/-- `GameTable` (chat history, message ids and the table id are presentation
state and are omitted). -/
structure GameTable where
  isPublic : Bool
  ownerId : Option Nat
  players : List TablePlayer
  dealerHand : List Card
  shoe : List Card
  state : TState
  currentPlayerIndex : Nat
  shuffleAlert : Bool
  lastActionTime : Nat
deriving DecidableEq, Repr

/-- `GameTable.get_player`. -/
def getPlayer (t : GameTable) (uid : Nat) : Option TablePlayer :=
  t.players.find? fun p => p.userId == uid

/-- `GameTable.update_activity`. -/
def updateActivity (now : Nat) (t : GameTable) : GameTable :=
  { t with lastActionTime := now }

/-- `TablePlayer.__init__` as invoked by `GameTable.add_player`. -/
def mkPlayer (uid bet startBal : Nat) : TablePlayer :=
  { userId := uid, originalBet := bet, hands := [[]], bets := [bet],
    statuses := [.waiting], currentHandIndex := 0, isReady := false,
    startBalance := startBal, lastAction := none }

/-- `GameTable.add_player`. -/
def addPlayer (now uid bet startBal : Nat) (t : GameTable) : GameTable :=
  updateActivity now { t with players := t.players ++ [mkPlayer uid bet startBal] }

/-- One iteration of the dealer loop plus fuel; by `handValue_ge_length`
below, value `< 17` forces fewer than 17 cards, so fuel 17 is never
exhausted before the loop condition fails. -/
def playDealerLoop (σ : List Card → List Card) :
    Nat → List Card → List Card → Bool → List Card × List Card × Bool
  | 0, hand, shoe, alert => (hand, shoe, alert)
  | fuel + 1, hand, shoe, alert =>
    if handValue hand < 17 then
      let (c, s, shoe2) := drawCard σ shoe
      playDealerLoop σ fuel (hand ++ [c]) shoe2 (alert || s)
    else (hand, shoe, alert)

/-- `GameTable.play_dealer`: hit while value `< 17`, then
`self.state = "finished"` unconditionally. -/
def playDealer (σ : List Card → List Card) (t : GameTable) : GameTable :=
  let r := playDealerLoop σ 17 t.dealerHand t.shoe t.shuffleAlert
  { t with dealerHand := r.1, shoe := r.2.1, shuffleAlert := r.2.2,
           state := .finished }

/-- The `while self.current_player_index < len(self.players)` scan inside
`process_turns`, with explicit fuel so that it is structural.  The loop
advances the index every iteration, so `ps.length` fuel always suffices:
with the fuel spent the index is past every seat and the loop would stop
with `none` anyway (see `findTurnFuel_none`). -/
def findTurnFuel : Nat → List TablePlayer → Nat → Option (Nat × TablePlayer × Nat)
  | 0, _, _ => none
  | fuel + 1, ps, i =>
    match ps.get? i with
    | none => none
    | some p =>
      match firstActiveHandIndex p with
      | some hi => some (i, p, hi)
      | none => findTurnFuel fuel ps (i + 1)

/-- First seat at or after `i` holding an active hand, together with that
seat's player and the index of its first active hand. -/
def findTurn (ps : List TablePlayer) (i : Nat) : Option (Nat × TablePlayer × Nat) :=
  findTurnFuel ps.length ps i

/-- `GameTable.process_turns`. -/
def processTurns (σ : List Card → List Card) (now : Nat) (t : GameTable) :
    GameTable :=
  let t1 := updateActivity now t
  match findTurn t1.players t1.currentPlayerIndex with
  | some (j, p, hi) =>
    { t1 with currentPlayerIndex := j,
              players := t1.players.set j { p with currentHandIndex := hi } }
  | none =>
    playDealer σ { t1 with currentPlayerIndex := t1.players.length,
                           state := .dealer_turn }

/-- Per-player part of `GameTable.start_game`: reset to a single hand, draw
two cards, mark a natural 21 as `blackjack`.  Threads the shoe and the
shuffle flag through the seats in order. -/
def dealPlayers (σ : List Card → List Card) :
    List TablePlayer → List Card → Bool → List TablePlayer × List Card × Bool
  | [], shoe, alert => ([], shoe, alert)
  | p :: rest, shoe, alert =>
    let (c1, s1, sh1) := drawCard σ shoe
    let (c2, s2, sh2) := drawCard σ sh1
    let hand := [c1, c2]
    let st : HStatus := if handValue hand = 21 then .blackjack else .playing
    let p2 : TablePlayer :=
      { p with hands := [hand], bets := [p.originalBet], statuses := [st],
               currentHandIndex := 0, lastAction := none }
    let (rest2, sh3, al3) := dealPlayers σ rest sh2 (alert || s1 || s2)
    (p2 :: rest2, sh3, al3)

/-- `GameTable.start_game`: two dealer cards, two cards per seat, then
`state = "player_turn"`, pointer to seat 0, and `process_turns`. -/
def startGame (σ : List Card → List Card) (now : Nat) (t : GameTable) :
    GameTable :=
  let (c1, s1, sh1) := drawCard σ t.shoe
  let (c2, s2, sh2) := drawCard σ sh1
  let (ps, sh3, al3) := dealPlayers σ t.players sh2 (false || s1 || s2)
  processTurns σ now
    { t with dealerHand := [c1, c2], players := ps, shoe := sh3,
             shuffleAlert := al3, state := .player_turn,
             currentPlayerIndex := 0 }

/-- Typed rejection reasons at the command boundary. -/
inductive Rej where
  | notYourTurn | insufficientFunds | invalidSplit | tableUnavailable
  | alreadySeated | tableFull
deriving DecidableEq, Repr

/-- Turn guard shared by `cb_hit` / `cb_stand` / `cb_double` / `cb_split`:
`if not player or table.players[table.current_player_index] != player`.
User ids of seated players are unique (joins reject an already-seated id),
so the source's object-identity test coincides with comparing ids; an
out-of-range pointer raises `IndexError` in the source before any mutation,
which is likewise a rejection. -/
def isCurrentTurn (t : GameTable) (uid : Nat) : Bool :=
  (getPlayer t uid).isSome &&
    match t.players.get? t.currentPlayerIndex with
    | some q => q.userId == uid
    | none => false

/-- Shared tail of `cb_hit` / `cb_stand` / `cb_double`:
`next_idx = player.first_active_hand_index()`; stay on this seat when it has
another active hand, otherwise `table.process_turns()`.  `p2` is the already
mutated current player, written back at the current seat. -/
def advanceAfter (σ : List Card → List Card) (now : Nat) (t : GameTable)
    (p2 : TablePlayer) : GameTable :=
  match firstActiveHandIndex p2 with
  | some i =>
    { t with players := t.players.set t.currentPlayerIndex
               { p2 with currentHandIndex := i } }
  | none =>
    processTurns σ now
      { t with players := t.players.set t.currentPlayerIndex p2 }

/-- `cb_hit`.  Returns the table as left by the handler plus `none` when the
command was accepted, `some r` when it was rejected. -/
def cbHit (σ : List Card → List Card) (now uid : Nat) (t : GameTable) :
    GameTable × Option Rej :=
  if isCurrentTurn t uid then
    match t.players.get? t.currentPlayerIndex with
    | none => (t, some .notYourTurn)
    | some p =>
      let (c, s, shoe2) := drawCard σ t.shoe
      let p1 : TablePlayer := { appendCard p c with lastAction := some .hit }
      let base : GameTable :=
        { t with shoe := shoe2, shuffleAlert := t.shuffleAlert || s }
      if 21 < handValue p1.hand then
        (advanceAfter σ now base (setStatus p1 .bust), none)
      else if handValue p1.hand = 21 then
        (advanceAfter σ now base (setStatus p1 .stand), none)
      else
        ({ base with players := base.players.set t.currentPlayerIndex p1 }, none)
  else (t, some .notYourTurn)

/-- `cb_stand`. -/
def cbStand (σ : List Card → List Card) (now uid : Nat) (t : GameTable) :
    GameTable × Option Rej :=
  if isCurrentTurn t uid then
    match t.players.get? t.currentPlayerIndex with
    | none => (t, some .notYourTurn)
    | some p =>
      let p1 : TablePlayer := { setStatus p .stand with lastAction := some .stand }
      (advanceAfter σ now t p1, none)
  else (t, some .notYourTurn)

/-- `cb_double`: after the turn and funds checks, double the bet, draw one
card, force `bust`/`stand`, advance.  (The source does not fold the draw's
reshuffle flag into `shuffle_alert` here.) -/
def cbDouble (σ : List Card → List Card) (now uid bal : Nat) (t : GameTable) :
    GameTable × Option Rej :=
  if isCurrentTurn t uid then
    match t.players.get? t.currentPlayerIndex with
    | none => (t, some .notYourTurn)
    | some p =>
      if bal < p.bet * 2 then (t, some .insufficientFunds)
      else
        let p1 : TablePlayer :=
          { p with bets := p.bets.set p.currentHandIndex (p.bet * 2) }
        let (c, _, shoe2) := drawCard σ t.shoe
        let p2 : TablePlayer := { appendCard p1 c with lastAction := some .double }
        let p3 : TablePlayer :=
          setStatus p2 (if 21 < handValue p2.hand then .bust else .stand)
        (advanceAfter σ now { t with shoe := shoe2 } p3, none)
  else (t, some .notYourTurn)

/-- `cb_split`: turn check, then the eligibility check
(`len(hands) == 1 and len(hand) == 2 and can_split_cards(...)`), then the
funds check, and only then the mutation: two one-card hands with the same
bet, both `"playing"`, pointer to hand 0, and one card drawn into the first
hand.  No card is drawn into the second hand and no 21 check is made. -/
def cbSplit (σ : List Card → List Card) (uid bal : Nat) (t : GameTable) :
    GameTable × Option Rej :=
  if isCurrentTurn t uid then
    match t.players.get? t.currentPlayerIndex with
    | none => (t, some .notYourTurn)
    | some p =>
      match p.hand with
      | [c1, c2] =>
        if p.hands.length = 1 ∧ canSplitCards c1 c2 then
          if bal < p.bet * 2 then (t, some .insufficientFunds)
          else
            let b := p.bet
            let p1 : TablePlayer :=
              { p with hands := [[c1], [c2]], bets := [b, b],
                       statuses := [.playing, .playing],
                       currentHandIndex := 0, lastAction := some .split }
            let (c, s, shoe2) := drawCard σ t.shoe
            let p2 := appendCard p1 c
            ({ t with players := t.players.set t.currentPlayerIndex p2,
                      shoe := shoe2,
                      shuffleAlert := t.shuffleAlert || s }, none)
        else (t, some .invalidSplit)
      | _ => (t, some .invalidSplit)
  else (t, some .notYourTurn)

/-- One table's slice of `check_timeouts_loop`: in `player_turn`, once idle
past `TURN_TIMEOUT`, the current hand is forced to stand and the turn
advances via `process_turns` (an out-of-range pointer raises `IndexError`,
swallowed by the `except`). -/
def timeoutSweep (σ : List Card → List Card) (now : Nat) (t : GameTable) :
    GameTable :=
  if t.state = .player_turn ∧ TURN_TIMEOUT < now - t.lastActionTime then
    match t.players.get? t.currentPlayerIndex with
    | none => t
    | some p =>
      let p1 : TablePlayer := { setStatus p .stand with lastAction := some .stand }
      processTurns σ now
        { t with players := t.players.set t.currentPlayerIndex p1 }
  else t

/-- `cb_prejoin`: the only join entry that checks the seat cap. -/
def cbPrejoin (uid : Nat) (t : GameTable) : Option Rej :=
  if t.state ≠ .waiting then some .tableUnavailable
  else if MAX_PLAYERS ≤ t.players.length then some .tableFull
  else if (getPlayer t uid).isSome then some .alreadySeated
  else none

/-- `cb_join_confirm` (the `joinbet_` preset-bet path): checks the table
state, an existing seat and the balance — but not the seat cap — before
`add_player`. -/
def cbJoinConfirm (now uid bal bet : Nat) (t : GameTable) :
    GameTable × Option Rej :=
  if t.state ≠ .waiting then (t, some .tableUnavailable)
  else if (getPlayer t uid).isSome then (t, some .alreadySeated)
  else if bal < bet then (t, some .insufficientFunds)
  else (addPlayer now uid bet bal t, none)

/-- `join_multi_table` (the custom-bet path; the balance was already checked
by `process_multi_custom_bet` before the call).  Also lacks a seat-cap
check. -/
def joinMultiTable (now uid bal bet : Nat) (t : GameTable) :
    GameTable × Option Rej :=
  if bal < bet then (t, some .insufficientFunds)
  else if t.state ≠ .waiting then (t, some .tableUnavailable)
  else if (getPlayer t uid).isSome then (t, some .alreadySeated)
  else (addPlayer now uid bet bal t, none)

/-- Settlement result kinds written by `finalize_game_db`. -/
inductive RType where
  | loss | blackjack | win | push
deriving DecidableEq, Repr

/-- The per-hand branch cascade of `finalize_game_db` (also mirrored by
`render_table_for_player`): payout and result kind for one hand given the
dealer's final value.  `int(bet * 1.5)` is `⌊3·bet/2⌋` for the non-negative
integer bets the engine deals in. -/
def settleHand (dVal : Nat) (hand : List Card) (status : HStatus) (bet : Nat) :
    Int × RType :=
  let hv := handValue hand
  if status = .bust then (-(bet : Int), .loss)
  else if status = .blackjack ∨ (hand.length = 2 ∧ hv = 21) then
    ((3 * bet / 2 : Nat), .blackjack)
  else if 21 < dVal ∨ (hv ≤ 21 ∧ dVal < hv) then ((bet : Int), .win)
  else if hv < dVal ∧ dVal ≤ 21 then (-(bet : Int), .loss)
  else (0, .push)

/-- `for idx, hand in enumerate(p.hands)` pairs each hand with its status
and bet; the three lists always have equal length (see `TablePlayer`). -/
def zipHands (p : TablePlayer) : List (List Card × HStatus × Nat) :=
  p.hands.zip (p.statuses.zip p.bets)

/-- The settlement loop of `finalize_game_db`, skipping empty hands
(`if not hand: continue`). -/
def handsResults (dVal : Nat) :
    List (List Card × HStatus × Nat) → List (Int × RType)
  | [] => []
  | (h, st, b) :: rest =>
    if h.isEmpty then handsResults dVal rest
    else settleHand dVal h st b :: handsResults dVal rest

/-- All settled hands of one player. -/
def playerResults (dVal : Nat) (p : TablePlayer) : List (Int × RType) :=
  handsResults dVal (zipHands p)

/-- `total_win_amount` for one player. -/
def playerTotal (dVal : Nat) (p : TablePlayer) : Int :=
  ((playerResults dVal p).map Prod.fst).sum

/-- The pure content of `finalize_game_db`: per player, the total payout and
the per-hand results, against the dealer's final value. -/
def finalizeResults (t : GameTable) : List (Int × List (Int × RType)) :=
  t.players.map fun p =>
    (playerTotal (handValue t.dealerHand) p,
     playerResults (handValue t.dealerHand) p)

/-- C1 fixture: a solo table mid-turn whose player holds a pair of aces and
whose shoe (61 cards, above the threshold) has a king on top. -/
def c1Player : TablePlayer :=
  { userId := 1, originalBet := 50,
    hands := [[(Rank.A, Suit.S), (Rank.A, Suit.H)]], bets := [50],
    statuses := [.playing], currentHandIndex := 0, isReady := false,
    startBalance := 1000, lastAction := none }

def c1Table : GameTable :=
  { isPublic := false, ownerId := some 1, players := [c1Player],
    dealerHand := [(Rank.r10, Suit.S), (Rank.r7, Suit.S)],
    shoe := List.replicate 60 ((Rank.r2, Suit.S) : Card) ++ [(Rank.K, Suit.S)],
    state := .player_turn, currentPlayerIndex := 0, shuffleAlert := false,
    lastActionTime := 0 }

/-- C2 fixture: a one-player solo round, shoe arranged (draws pop from the
end) so the deal gives the dealer 10♠ 7♠ and the player A♠ A♦, the split
then puts K♠ on the first hand, and the hit puts 9♠ on the second. -/
def c2Player : TablePlayer :=
  { userId := 1, originalBet := 50, hands := [[]], bets := [50],
    statuses := [.waiting], currentHandIndex := 0, isReady := false,
    startBalance := 1000, lastAction := none }

def c2Shoe : List Card :=
  List.replicate 60 ((Rank.r2, Suit.S) : Card) ++
    [(Rank.r9, Suit.S), (Rank.K, Suit.S), (Rank.A, Suit.D), (Rank.A, Suit.S),
     (Rank.r7, Suit.S), (Rank.r10, Suit.S)]

def c2Table0 : GameTable :=
  { isPublic := false, ownerId := some 1, players := [c2Player],
    dealerHand := [], shoe := c2Shoe, state := .waiting,
    currentPlayerIndex := 0, shuffleAlert := false, lastActionTime := 0 }

/-- The C2 round: deal, split the aces, stand the first hand (A♠ K♠, a
two-card 21 reached via split), hit and stand the second. -/
def c2Run : GameTable :=
  let t1 := startGame id 0 c2Table0
  let t2 := (cbSplit id 1 1000 t1).1
  let t3 := (cbStand id 0 1 t2).1
  let t4 := (cbHit id 0 1 t3).1
  (cbStand id 0 1 t4).1

/-- C9 fixture: a public lobby already seating the cap of three players. -/
def c9Player (i : Nat) : TablePlayer :=
  { userId := i, originalBet := 100, hands := [[]], bets := [100],
    statuses := [.waiting], currentHandIndex := 0, isReady := false,
    startBalance := 1000, lastAction := none }

def c9Table : GameTable :=
  { isPublic := true, ownerId := some 1,
    players := [c9Player 1, c9Player 2, c9Player 3], dealerHand := [],
    shoe := [], state := .waiting, currentPlayerIndex := 0,
    shuffleAlert := false, lastActionTime := 0 }

/-- C10 fixture: one player mid-turn holding 5♥ 5♦, shoe of 61 2♠ cards,
last-activity timestamp 77. -/
def c10Player : TablePlayer :=
  { userId := 1, originalBet := 50,
    hands := [[(Rank.r5, Suit.H), (Rank.r5, Suit.D)]], bets := [50],
    statuses := [.playing], currentHandIndex := 0, isReady := false,
    startBalance := 1000, lastAction := none }

def c10Table : GameTable :=
  { isPublic := false, ownerId := some 1, players := [c10Player],
    dealerHand := [(Rank.r10, Suit.S), (Rank.r7, Suit.S)],
    shoe := List.replicate 61 ((Rank.r2, Suit.S) : Card),
    state := .player_turn, currentPlayerIndex := 0, shuffleAlert := false,
    lastActionTime := 77 }

/-- Terminal hand statuses (`stand`, `bust`, `blackjack`): once set they are
never reverted within a round. -/
def Terminal (s : HStatus) : Prop := s = .stand ∨ s = .bust ∨ s = .blackjack

/-- Every hand of every seated player is terminal. -/
def allTerminal (t : GameTable) : Prop :=
  ∀ p ∈ t.players, ∀ s ∈ p.statuses, Terminal s

/-- No hand carries the pre-deal `waiting` status (true from the deal on). -/
def noWaiting (t : GameTable) : Prop :=
  ∀ p ∈ t.players, ∀ s ∈ p.statuses, s ≠ .waiting

/-- During `player_turn` the turn pointer rests on an existing seat whose
current hand is `playing`, and every seat the pointer already passed has no
active hand left. -/
def PointerOK (t : GameTable) : Prop :=
  ∃ p, t.players.get? t.currentPlayerIndex = some p ∧
    p.statuses.get? p.currentHandIndex = some .playing ∧
    ∀ j q, j < t.currentPlayerIndex → t.players.get? j = some q →
      hasActiveHand q = false

/-- The in-round invariant: after `start_game` a table rests in
`player_turn` or `finished`; statuses are past `waiting`; in `player_turn`
the pointer is on an active hand; in `finished` the pointer is past every
seat and every hand is terminal. -/
def Inv (t : GameTable) : Prop :=
  (t.state = .player_turn ∨ t.state = .finished) ∧
  noWaiting t ∧
  (t.state = .player_turn → PointerOK t) ∧
  (t.state = .finished →
    t.players.length ≤ t.currentPlayerIndex ∧ allTerminal t)

/-- One externally triggered in-round transition: any of the four game
commands (from any caller, any balance, any shuffle) or a timeout sweep.
Rejected commands leave the table unchanged, so including them is
harmless. -/
inductive Step : GameTable → GameTable → Prop where
  | hit : ∀ (σ : List Card → List Card) (now uid : Nat) (t : GameTable),
      Step t (cbHit σ now uid t).1
  | stand : ∀ (σ : List Card → List Card) (now uid : Nat) (t : GameTable),
      Step t (cbStand σ now uid t).1
  | double : ∀ (σ : List Card → List Card) (now uid bal : Nat) (t : GameTable),
      Step t (cbDouble σ now uid bal t).1
  | split : ∀ (σ : List Card → List Card) (uid bal : Nat) (t : GameTable),
      Step t (cbSplit σ uid bal t).1
  | timeout : ∀ (σ : List Card → List Card) (now : Nat) (t : GameTable),
      Step t (timeoutSweep σ now t)

/-! ## Helper lemmas -/

theorem get?_set_self {α : Type} (l : List α) (i : Nat) (a : α)
    (h : i < l.length) : (l.set i a).get? i = some a := by
  rw [List.get?_eq_getElem?, List.getElem?_set_eq_of_lt a h]

theorem get?_set_other {α : Type} (l : List α) {m n : Nat} (a : α)
    (h : m ≠ n) : (l.set m a).get? n = l.get? n := by
  rw [List.get?_eq_getElem?, List.get?_eq_getElem?, List.getElem?_set_ne h]

theorem lt_of_get?_eq_some {α : Type} {l : List α} {i : Nat} {a : α}
    (h : l.get? i = some a) : i < l.length :=
  (List.get?_eq_some.mp h).1

theorem getD_eq_get? {α : Type} (l : List α) (n : Nat) (d : α) :
    l.getD n d = (l.get? n).getD d := by
  rw [List.getD_eq_getElem?_getD, List.get?_eq_getElem?]

theorem rankValue_ge_two (r : Rank) : 2 ≤ rankValue r := by
  cases r <;> simp [rankValue]

theorem rawSum_cons (c : Card) (h : List Card) :
    rawSum (c :: h) = rankValue c.1 + rawSum h := by
  simp [rawSum]

theorem aceCount_cons (c : Card) (h : List Card) :
    aceCount (c :: h) = (if isAce c then 1 else 0) + aceCount h := by
  by_cases hc : isAce c <;> simp [aceCount, List.filter_cons, hc] <;> omega

theorem length_add_aces_le_rawSum (h : List Card) :
    h.length + 10 * aceCount h ≤ rawSum h := by
  induction h with
  | nil => simp [rawSum, aceCount]
  | cons c rest ih =>
    rw [rawSum_cons, aceCount_cons, List.length_cons]
    by_cases hc : isAce c
    · have hv : rankValue c.1 = 11 := by
        have : c.1 = Rank.A := by simpa [isAce] using hc
        simp [this, rankValue]
      simp only [hc, if_pos]
      omega
    · have := rankValue_ge_two c.1
      rw [if_neg hc]
      omega

theorem reduceAces_ge (a v : Nat) : v - 10 * a ≤ reduceAces v a := by
  induction a generalizing v with
  | zero => simp [reduceAces]
  | succ a ih =>
    rw [reduceAces]
    by_cases hv : 21 < v
    · have := ih (v - 10)
      simp only [hv, if_pos]
      omega
    · simp only [hv, if_neg, not_false_iff]
      omega

theorem handValue_ge_length (h : List Card) : h.length ≤ handValue h := by
  have h1 := length_add_aces_le_rawSum h
  have h2 := reduceAces_ge (aceCount h) (rawSum h)
  unfold handValue
  omega

theorem reduceAces_of_le (a v : Nat) (h : v ≤ 21) : reduceAces v a = v := by
  cases a with
  | zero => rfl
  | succ a => simp [reduceAces, Nat.not_lt.mpr h]

/-! ## Dealer-loop lemmas -/

theorem playDealerLoop_length (σ : List Card → List Card) (fuel : Nat)
    (hand shoe : List Card) (alert : Bool) :
    hand.length ≤ (playDealerLoop σ fuel hand shoe alert).1.length := by
  induction fuel generalizing hand shoe alert with
  | zero => simp [playDealerLoop]
  | succ fuel ih =>
    rw [playDealerLoop]
    by_cases hv : handValue hand < 17
    · rcases hdc : drawCard σ shoe with ⟨c, s, shoe2⟩
      simp only [hv, if_pos]
      have := ih (hand ++ [c]) shoe2 (alert || s)
      simp only [List.length_append, List.length_singleton] at this
      omega
    · simp [hv]

theorem playDealerLoop_final_value (σ : List Card → List Card) (fuel : Nat)
    (hand shoe : List Card) (alert : Bool) (hf : 17 ≤ fuel + hand.length) :
    17 ≤ handValue (playDealerLoop σ fuel hand shoe alert).1 := by
  induction fuel generalizing hand shoe alert with
  | zero =>
    have := handValue_ge_length hand
    simp only [playDealerLoop]
    omega
  | succ fuel ih =>
    rw [playDealerLoop]
    by_cases hv : handValue hand < 17
    · rcases hdc : drawCard σ shoe with ⟨c, s, shoe2⟩
      simp only [hv, if_pos]
      apply ih
      simp only [List.length_append, List.length_singleton]
      omega
    · simp only [hv, if_neg, not_false_iff]
      omega

theorem playDealerLoop_idle (σ : List Card → List Card) (fuel : Nat)
    (hand shoe : List Card) (alert : Bool) (h17 : 17 ≤ handValue hand) :
    playDealerLoop σ (fuel + 1) hand shoe alert = (hand, shoe, alert) := by
  rw [playDealerLoop]
  simp [Nat.not_lt.mpr h17]

/-! ## Claim theorems -/

/-- C4: a hand's value is the raw rank sum (J/Q/K as 10, each ace as 11),
reduced by 10 per ace while the total exceeds 21 and an unreduced ace
remains; `value([A]) = 11`, `value([A,A]) = 12`, `value([A,8,2]) = 21`,
`value([A,9,A]) = 21`. -/
theorem hand_value_soft_ace :
    (∀ h : List Card, handValue h = reduceAces (rawSum h) (aceCount h)) ∧
    (∀ v a : Nat, v ≤ 21 → reduceAces v a = v) ∧
    (∀ v a : Nat, 21 < v → reduceAces v (a + 1) = reduceAces (v - 10) a) ∧
    handValue [(Rank.A, Suit.S)] = 11 ∧
    handValue [(Rank.A, Suit.S), (Rank.A, Suit.H)] = 12 ∧
    handValue [(Rank.A, Suit.S), (Rank.r8, Suit.S), (Rank.r2, Suit.S)] = 21 ∧
    handValue [(Rank.A, Suit.S), (Rank.r9, Suit.S), (Rank.A, Suit.H)] = 21 := by
  refine ⟨fun h => rfl, fun v a hv => reduceAces_of_le a v hv, ?_,
    by decide, by decide, by decide, by decide⟩
  intro v a hv
  simp [reduceAces, hv]

/-- Witness for `hand_value_soft_ace` at a concrete reduction state. -/
theorem hand_value_soft_ace_witness :
    (12 : Nat) ≤ 21 ∧ reduceAces 12 1 = 12 :=
  ⟨by decide, hand_value_soft_ace.2.1 12 1 (by decide)⟩

/-- C5: a draw from a shoe below the 60-card penetration threshold rebuilds
the full 5-deck pool (via the shuffle `σ`) before popping exactly one card
and reports `reshuffled = true`; otherwise it pops one card and reports
`false`; at most one rebuild happens per draw (the post-draw shoe holds
exactly 259 cards after a rebuild), and the draw immediately after a
rebuild reports `false`. -/
theorem shoe_reshuffle_on_draw (σ : List Card → List Card) (shoe : List Card)
    (Hσ : (σ fullPool).length = 52 * DECKS_COUNT) :
    (shoe.length < RESHUFFLE_THRESHOLD →
      (drawCard σ shoe).2.1 = true ∧
      (drawCard σ shoe).2.2.length = 52 * DECKS_COUNT - 1 ∧
      (drawCard σ (drawCard σ shoe).2.2).2.1 = false) ∧
    (RESHUFFLE_THRESHOLD ≤ shoe.length →
      (drawCard σ shoe).2.1 = false ∧
      (drawCard σ shoe).2.2.length = shoe.length - 1) := by
  constructor
  · intro hlt
    have h1 : (drawCard σ shoe).2.1 = true := by
      simp [drawCard, hlt]
    have h2 : (drawCard σ shoe).2.2.length = 52 * DECKS_COUNT - 1 := by
      simp [drawCard, hlt, List.length_dropLast, Hσ]
    refine ⟨h1, h2, ?_⟩
    have h3 : ¬ (drawCard σ shoe).2.2.length < RESHUFFLE_THRESHOLD := by
      rw [h2]; decide
    conv_lhs => rw [drawCard]
    rw [if_neg h3]
  · intro hge
    have hne : ¬ shoe.length < RESHUFFLE_THRESHOLD := Nat.not_lt.mpr hge
    simp [drawCard, hne, List.length_dropLast]

theorem fullPool_length : fullPool.length = 52 * DECKS_COUNT := by
  have hb : baseDeck.length = 52 := by decide
  simp [fullPool, DECKS_COUNT, hb]

/-- Witness for `shoe_reshuffle_on_draw`: the identity permutation and an
empty shoe. -/
theorem shoe_reshuffle_on_draw_witness :
    ((id fullPool).length = 52 * DECKS_COUNT ∧ ([] : List Card).length < RESHUFFLE_THRESHOLD) ∧
    (drawCard id []).2.1 = true ∧
    (drawCard id []).2.2.length = 52 * DECKS_COUNT - 1 ∧
    (drawCard id (drawCard id []).2.2).2.1 = false :=
  ⟨⟨fullPool_length, by decide⟩,
    (shoe_reshuffle_on_draw id [] fullPool_length).1 (by decide)⟩

/-- C6: dealer play draws while the dealer's value is strictly below 17 and
stands on any value of 17 or more (soft 17 included, there being no
special case), and the table always ends in the `finished` state. -/
theorem dealer_plays_to_seventeen (σ : List Card → List Card) (t : GameTable) :
    (playDealer σ t).state = .finished ∧
    17 ≤ handValue (playDealer σ t).dealerHand ∧
    (17 ≤ handValue t.dealerHand → (playDealer σ t).dealerHand = t.dealerHand) ∧
    (handValue t.dealerHand < 17 →
      t.dealerHand.length < (playDealer σ t).dealerHand.length) := by
  refine ⟨rfl, ?_, ?_, ?_⟩
  · exact playDealerLoop_final_value σ 17 t.dealerHand t.shoe t.shuffleAlert
      (by omega)
  · intro h17
    simp only [playDealer]
    rw [show (17 : Nat) = 16 + 1 from rfl,
      playDealerLoop_idle σ 16 t.dealerHand t.shoe t.shuffleAlert h17]
  · intro hlt
    simp only [playDealer]
    rw [show (17 : Nat) = 16 + 1 from rfl, playDealerLoop]
    rcases hdc : drawCard σ t.shoe with ⟨c, s, shoe2⟩
    simp only [hlt, if_pos]
    have := playDealerLoop_length σ 16 (t.dealerHand ++ [c]) shoe2
      (t.shuffleAlert || s)
    simp only [List.length_append, List.length_singleton] at this
    omega

/-- Witness for `dealer_plays_to_seventeen`: a dealer holding a soft
seventeen (A + 6) draws no card. -/
theorem dealer_plays_to_seventeen_witness :
    17 ≤ handValue [(Rank.A, Suit.S), (Rank.r6, Suit.S)] ∧
    (playDealer id
      { isPublic := false, ownerId := none, players := [],
        dealerHand := [(Rank.A, Suit.S), (Rank.r6, Suit.S)], shoe := [],
        state := .dealer_turn, currentPlayerIndex := 0, shuffleAlert := false,
        lastActionTime := 0 }).dealerHand =
      [(Rank.A, Suit.S), (Rank.r6, Suit.S)] :=
  ⟨by decide,
    (dealer_plays_to_seventeen id _).2.2.1 (by decide)⟩

theorem getD_set_self {α : Type} (l : List α) (i : Nat) (a d : α)
    (h : i < l.length) : (l.set i a).getD i d = a := by
  rw [getD_eq_get?, get?_set_self l i a h]
  rfl

/-- C1: counterexample.  An accepted split of A♠/A♥ leaves the second hand
with a single card (no fresh card is drawn into it), and the first hand —
two cards worth 21 — keeps status `playing` rather than being marked
`stand`. -/
theorem split_counterexample :
    (cbSplit id 1 1000 c1Table).2 = none ∧
    ((cbSplit id 1 1000 c1Table).1.players.get? 0).map TablePlayer.hands =
      some [[(Rank.A, Suit.S), (Rank.K, Suit.S)], [(Rank.A, Suit.H)]] ∧
    ((cbSplit id 1 1000 c1Table).1.players.get? 0).map TablePlayer.statuses =
      some [.playing, .playing] ∧
    handValue [(Rank.A, Suit.S), (Rank.K, Suit.S)] = 21 := by decide

/-- C1 (amended): an accepted split separates the two cards into two hands
each carrying the original bet, draws one fresh card into the *first* hand
only (the second hand keeps a single card until it is played), leaves both
hands `playing` with the pointer on hand 0, and performs no 21 check. -/
theorem split_effect (σ : List Card → List Card) (uid bal : Nat)
    (t : GameTable) (p : TablePlayer) (c1 c2 : Card)
    (hp : t.players.get? t.currentPlayerIndex = some p)
    (hturn : isCurrentTurn t uid = true)
    (hhand : p.hand = [c1, c2])
    (hone : p.hands.length = 1)
    (hel : canSplitCards c1 c2 = true)
    (hbal : p.bet * 2 ≤ bal) :
    (cbSplit σ uid bal t).2 = none ∧
    (cbSplit σ uid bal t).1.players.get? t.currentPlayerIndex = some
      { p with hands := [[c1, (drawCard σ t.shoe).1], [c2]],
               bets := [p.bet, p.bet], statuses := [.playing, .playing],
               currentHandIndex := 0, lastAction := some .split } ∧
    (cbSplit σ uid bal t).1.shoe = (drawCard σ t.shoe).2.2 ∧
    (cbSplit σ uid bal t).1.state = t.state := by
  have hlt := lt_of_get?_eq_some hp
  have hnb : ¬ bal < p.bet * 2 := Nat.not_lt.mpr hbal
  have hhand2 : p.hands.getD p.currentHandIndex [] = [c1, c2] := hhand
  rcases hdc : drawCard σ t.shoe with ⟨c, s, sh⟩
  simp only [cbSplit, hturn, if_true, hp, TablePlayer.hand, hhand2, hone, hel,
    and_self, if_pos, hnb, if_neg, not_false_iff, hdc, appendCard]
  rw [get?_set_self _ _ _ hlt]
  simp

/-- Witness for `split_effect` on the C1 fixture. -/
theorem split_effect_witness :
    (c1Table.players.get? 0 = some c1Player ∧ isCurrentTurn c1Table 1 = true ∧
      c1Player.bet * 2 ≤ 1000) ∧
    (cbSplit id 1 1000 c1Table).2 = none :=
  ⟨⟨by decide, by decide, by decide⟩,
    (split_effect id 1 1000 c1Table c1Player (Rank.A, Suit.S) (Rank.A, Suit.H)
      (by decide) (by decide) (by decide) (by decide) (by decide)
      (by decide)).1⟩

/-- C2: counterexample.  In this finished round the first hand, a two-card
21 produced by splitting a pair of aces, is settled as `blackjack` and paid
`+75 = floor(50 × 1.5)` — the settlement's `len(hand) == 2 and value == 21`
catch does not exclude split hands. -/
theorem split_21_settles_as_blackjack :
    c2Run.state = .finished ∧
    (c2Run.players.get? 0).map TablePlayer.hands =
      some [[(Rank.A, Suit.S), (Rank.K, Suit.S)],
            [(Rank.A, Suit.D), (Rank.r9, Suit.S)]] ∧
    handValue c2Run.dealerHand = 17 ∧
    finalizeResults c2Run =
      [(125, [((75 : Int), RType.blackjack), ((50 : Int), RType.win)])] := by
  decide

/-- C2 (amended): settlement classifies a hand as `blackjack` exactly when
it is not bust and either its status is `blackjack` (initial natural) or it
has exactly two cards of value 21 — the latter includes two-card 21s
produced by splits; every hand so classified is paid `floor(bet × 1.5)`; a
hand with three or more cards and a status other than `blackjack` is never
classified `blackjack`. -/
theorem blackjack_classification (dVal bet : Nat) (hand : List Card)
    (status : HStatus) :
    ((settleHand dVal hand status bet).2 = .blackjack ↔
      (status ≠ .bust ∧
        (status = .blackjack ∨ (hand.length = 2 ∧ handValue hand = 21)))) ∧
    ((status ≠ .bust ∧
        (status = .blackjack ∨ (hand.length = 2 ∧ handValue hand = 21))) →
      (settleHand dVal hand status bet).1 = ((3 * bet / 2 : Nat) : Int)) ∧
    (status ≠ .blackjack → hand.length ≠ 2 →
      (settleHand dVal hand status bet).2 ≠ .blackjack) := by
  by_cases hb : status = .bust
  · subst hb
    simp [settleHand]
  · by_cases hbj : status = .blackjack ∨ (hand.length = 2 ∧ handValue hand = 21)
    · have hs : settleHand dVal hand status bet =
        (((3 * bet / 2 : Nat) : Int), .blackjack) := by
        simp [settleHand, hb, hbj]
      refine ⟨by simp [hs, hb, hbj], fun _ => by rw [hs], ?_⟩
      intro h1 h2
      rcases hbj with h | ⟨h, _⟩
      · exact absurd h h1
      · exact absurd h h2
    · have hne : (settleHand dVal hand status bet).2 ≠ .blackjack := by
        simp only [settleHand, if_neg hb, if_neg hbj]
        split_ifs <;> simp
      refine ⟨⟨fun h => absurd h hne, fun h => absurd h.2 hbj⟩,
        fun h => absurd h.2 hbj, fun _ _ => hne⟩

/-- Witness for `blackjack_classification`: the split hand A♠ K♠ standing
against a dealer 17 is paid 75 on a 50 bet. -/
theorem blackjack_classification_witness :
    ((HStatus.stand ≠ HStatus.bust ∧
      (HStatus.stand = HStatus.blackjack ∨
        (([(Rank.A, Suit.S), (Rank.K, Suit.S)] : List Card).length = 2 ∧
          handValue [(Rank.A, Suit.S), (Rank.K, Suit.S)] = 21)))) ∧
    (settleHand 17 [(Rank.A, Suit.S), (Rank.K, Suit.S)] .stand 50).1 = 75 :=
  ⟨by decide,
    (blackjack_classification 17 50 [(Rank.A, Suit.S), (Rank.K, Suit.S)]
      .stand).2.1 (by decide)⟩

theorem handsResults_no_skip (dVal : Nat)
    (l : List (List Card × HStatus × Nat)) (hne : ∀ x ∈ l, x.1 ≠ []) :
    handsResults dVal l = l.map fun x => settleHand dVal x.1 x.2.1 x.2.2 := by
  induction l with
  | nil => rfl
  | cons x rest ih =>
    rcases x with ⟨h, st, b⟩
    have hx : h ≠ [] := hne (h, st, b) (List.mem_cons_self _ _)
    rw [handsResults, if_neg (by simpa [List.isEmpty_iff] using hx)]
    rw [ih fun y hy => hne y (List.mem_cons_of_mem _ hy)]
    rfl

/-- C3: for a finished round, a hand not settled as blackjack pays `−bet`
when bust, `+bet` when the dealer busts or the hand beats the dealer's
value, `0` on a push and `−bet` when it loses to a non-bust dealer (non-bust
player hands always have value ≤ 21 in reachable rounds, which the second
hypothesis records); and a player's round total is the sum of the per-hand
payouts over all of that player's hands. -/
theorem settlement_payouts :
    (∀ (dVal bet : Nat) (hand : List Card) (status : HStatus),
      ¬ (status = .blackjack ∨ (hand.length = 2 ∧ handValue hand = 21)) →
      (status = .bust ∨ handValue hand ≤ 21) →
      (settleHand dVal hand status bet).1 =
        (if status = .bust then -(bet : Int)
         else if 21 < dVal ∨ dVal < handValue hand then (bet : Int)
         else if handValue hand = dVal then 0
         else -(bet : Int))) ∧
    (∀ (dVal : Nat) (p : TablePlayer), (∀ h ∈ p.hands, h ≠ []) →
      playerTotal dVal p =
        ((zipHands p).map fun x => (settleHand dVal x.1 x.2.1 x.2.2).1).sum) := by
  constructor
  · intro dVal bet hand status hnbj hok
    by_cases hb : status = .bust
    · simp [settleHand, hb]
    · have hv21 : handValue hand ≤ 21 := by
        rcases hok with h | h
        · exact absurd h hb
        · exact h
      rw [if_neg hb]
      by_cases hw : 21 < dVal ∨ dVal < handValue hand
      · have hw2 : 21 < dVal ∨ (handValue hand ≤ 21 ∧ dVal < handValue hand) := by
          rcases hw with h | h
          · exact Or.inl h
          · exact Or.inr ⟨hv21, h⟩
        simp only [settleHand, if_neg hb, if_neg hnbj, if_pos hw2]
        simp [hw]
      · rw [if_neg hw]
        by_cases hp : handValue hand = dVal
        · have hnl : ¬ (handValue hand < dVal ∧ dVal ≤ 21) := by omega
          have hnw : ¬ (21 < dVal ∨ (handValue hand ≤ 21 ∧ dVal < handValue hand)) := by
            omega
          simp only [settleHand, if_neg hb, if_neg hnbj, if_neg hnw, if_neg hnl]
          simp [hp]
        · have hl : handValue hand < dVal ∧ dVal ≤ 21 := by omega
          have hnw : ¬ (21 < dVal ∨ (handValue hand ≤ 21 ∧ dVal < handValue hand)) := by
            omega
          simp only [settleHand, if_neg hb, if_neg hnbj, if_neg hnw, if_pos hl]
          simp [hp]
  · intro dVal p hne
    have hz : ∀ x ∈ zipHands p, x.1 ≠ [] := by
      intro x hx
      rcases x with ⟨h, st, b⟩
      exact hne h (List.of_mem_zip hx).1
    rw [playerTotal, playerResults, handsResults_no_skip dVal _ hz, List.map_map]
    rfl

/-- Witness for `settlement_payouts`: a standing 19 beats a dealer 17 for
`+bet`. -/
theorem settlement_payouts_witness :
    (¬ (HStatus.stand = HStatus.blackjack ∨
        (([(Rank.r10, Suit.S), (Rank.r9, Suit.S)] : List Card).length = 2 ∧
          handValue [(Rank.r10, Suit.S), (Rank.r9, Suit.S)] = 21))) ∧
    (settleHand 17 [(Rank.r10, Suit.S), (Rank.r9, Suit.S)] .stand 100).1 =
      (if HStatus.stand = HStatus.bust then -(100 : Int)
       else if 21 < 17 ∨ 17 < handValue [(Rank.r10, Suit.S), (Rank.r9, Suit.S)]
       then (100 : Int)
       else if handValue [(Rank.r10, Suit.S), (Rank.r9, Suit.S)] = 17 then 0
       else -(100 : Int)) :=
  ⟨by decide,
    settlement_payouts.1 17 100 [(Rank.r10, Suit.S), (Rank.r9, Suit.S)] .stand
      (by decide) (by decide)⟩

/-! Every rejection path of the four in-round handlers returns before any
mutation, so a rejected command leaves the table exactly as received. -/

theorem cbHit_cases (σ : List Card → List Card) (now uid : Nat) (t : GameTable) :
    (cbHit σ now uid t).1 = t ∨ (cbHit σ now uid t).2 = none := by
  unfold cbHit
  by_cases hg : isCurrentTurn t uid
  · simp only [hg, if_true]
    rcases hp : t.players.get? t.currentPlayerIndex with _ | p
    · left; rfl
    · rcases hdc : drawCard σ t.shoe with ⟨c, s, sh⟩
      dsimp only
      split_ifs <;> right <;> rfl
  · simp only [hg, if_false]
    left; rfl

theorem cbStand_cases (σ : List Card → List Card) (now uid : Nat) (t : GameTable) :
    (cbStand σ now uid t).1 = t ∨ (cbStand σ now uid t).2 = none := by
  unfold cbStand
  by_cases hg : isCurrentTurn t uid
  · simp only [hg, if_true]
    rcases hp : t.players.get? t.currentPlayerIndex with _ | p
    · left; rfl
    · dsimp only
      right; rfl
  · simp only [hg, if_false]
    left; rfl

theorem cbDouble_cases (σ : List Card → List Card) (now uid bal : Nat) (t : GameTable) :
    (cbDouble σ now uid bal t).1 = t ∨ (cbDouble σ now uid bal t).2 = none := by
  unfold cbDouble
  by_cases hg : isCurrentTurn t uid
  · simp only [hg, if_true]
    rcases hp : t.players.get? t.currentPlayerIndex with _ | p
    · left; rfl
    · rcases hdc : drawCard σ t.shoe with ⟨c, s, sh⟩
      dsimp only
      split_ifs <;> first | (left; rfl) | (right; rfl)
  · simp only [hg, if_false]
    left; rfl

theorem cbSplit_cases (σ : List Card → List Card) (uid bal : Nat) (t : GameTable) :
    (cbSplit σ uid bal t).1 = t ∨ (cbSplit σ uid bal t).2 = none := by
  unfold cbSplit
  by_cases hg : isCurrentTurn t uid
  · simp only [hg, if_true]
    rcases hp : t.players.get? t.currentPlayerIndex with _ | p
    · left; rfl
    · rcases hdc : drawCard σ t.shoe with ⟨c, s, sh⟩
      dsimp only
      split
      · split_ifs <;> first | (left; rfl) | (right; rfl)
      · left; rfl
  · simp only [hg, if_false]
    left; rfl

/-- C8: a rejected `hit`, `stand`, `double` or `split` leaves the table
completely untouched (all validation precedes any card draw, bet change or
status flip); in particular a split with a balance below twice the bet is
rejected with the insufficient-funds error and the original hand stays
unsplit and unchanged. -/
theorem rejected_commands_frame :
    (∀ (σ : List Card → List Card) (now uid : Nat) (t : GameTable) (r : Rej),
      (cbHit σ now uid t).2 = some r → (cbHit σ now uid t).1 = t) ∧
    (∀ (σ : List Card → List Card) (now uid : Nat) (t : GameTable) (r : Rej),
      (cbStand σ now uid t).2 = some r → (cbStand σ now uid t).1 = t) ∧
    (∀ (σ : List Card → List Card) (now uid bal : Nat) (t : GameTable) (r : Rej),
      (cbDouble σ now uid bal t).2 = some r → (cbDouble σ now uid bal t).1 = t) ∧
    (∀ (σ : List Card → List Card) (uid bal : Nat) (t : GameTable) (r : Rej),
      (cbSplit σ uid bal t).2 = some r → (cbSplit σ uid bal t).1 = t) ∧
    (∀ (σ : List Card → List Card) (uid bal : Nat) (t : GameTable)
      (p : TablePlayer) (c1 c2 : Card),
      t.players.get? t.currentPlayerIndex = some p →
      isCurrentTurn t uid = true →
      p.hand = [c1, c2] → p.hands.length = 1 → canSplitCards c1 c2 = true →
      bal < p.bet * 2 →
      cbSplit σ uid bal t = (t, some .insufficientFunds)) := by
  refine ⟨?_, ?_, ?_, ?_, ?_⟩
  · intro σ now uid t r h
    exact (cbHit_cases σ now uid t).resolve_right (by rw [h]; simp)
  · intro σ now uid t r h
    exact (cbStand_cases σ now uid t).resolve_right (by rw [h]; simp)
  · intro σ now uid bal t r h
    exact (cbDouble_cases σ now uid bal t).resolve_right (by rw [h]; simp)
  · intro σ uid bal t r h
    exact (cbSplit_cases σ uid bal t).resolve_right (by rw [h]; simp)
  · intro σ uid bal t p c1 c2 hp hturn hhand hone hel hbal
    have hhand2 : p.hands.getD p.currentHandIndex [] = [c1, c2] := hhand
    simp only [cbSplit, hturn, if_true, hp, TablePlayer.hand, hhand2, hone, hel,
      and_self, if_pos, hbal, if_true]

/-- Witness for `rejected_commands_frame`: a hit from a non-seated user is
rejected and changes nothing; a split with only 50 chips against a 50-chip
bet is rejected with `insufficientFunds`. -/
theorem rejected_commands_frame_witness :
    ((cbHit id 0 99 c1Table).2 = some .notYourTurn ∧
      (cbHit id 0 99 c1Table).1 = c1Table) ∧
    cbSplit id 1 50 c1Table = (c1Table, some .insufficientFunds) :=
  ⟨⟨by decide,
      rejected_commands_frame.1 id 0 99 c1Table .notYourTurn (by decide)⟩,
    rejected_commands_frame.2.2.2.2 id 1 50 c1Table c1Player
      (Rank.A, Suit.S) (Rank.A, Suit.H) (by decide) (by decide) (by decide)
      (by decide) (by decide) (by decide)⟩

/-- C9: the table-full check lives only in the pre-join prompt
(`cb_prejoin`); the commands that actually seat the player —
`cb_join_confirm` (preset bet) and `join_multi_table` (custom bet) — never
re-check the seat cap, so a fourth join delivered through either path is
accepted on a full table and grows the player list to four. -/
theorem join_cap_only_checked_at_prejoin :
    c9Table.players.length = MAX_PLAYERS ∧
    cbPrejoin 4 c9Table = some .tableFull ∧
    (cbJoinConfirm 0 4 1000 100 c9Table).2 = none ∧
    (cbJoinConfirm 0 4 1000 100 c9Table).1.players.length = MAX_PLAYERS + 1 ∧
    (joinMultiTable 0 4 1000 100 c9Table).2 = none ∧
    (joinMultiTable 0 4 1000 100 c9Table).1.players.length = MAX_PLAYERS + 1 := by
  decide

theorem playDealer_lastActionTime (σ : List Card → List Card) (t : GameTable) :
    (playDealer σ t).lastActionTime = t.lastActionTime := rfl

theorem processTurns_lastActionTime (σ : List Card → List Card) (now : Nat)
    (t : GameTable) : (processTurns σ now t).lastActionTime = now := by
  unfold processTurns
  dsimp only
  split
  · rfl
  · rfl

/-- C10: a hit whose resulting hand stays strictly below 21 leaves the
hand active and does not touch the table's last-activity timestamp — that
timestamp is refreshed only by `process_turns` (and by the lobby mutations),
so the timeout sweep keeps measuring idleness from the earlier action. -/
theorem hit_below_21_keeps_timestamp (σ : List Card → List Card)
    (now uid : Nat) (t : GameTable) (p : TablePlayer)
    (hp : t.players.get? t.currentPlayerIndex = some p)
    (hturn : isCurrentTurn t uid = true)
    (hchi : p.currentHandIndex < p.hands.length)
    (hlt : handValue (p.hand ++ [(drawCard σ t.shoe).1]) < 21) :
    (cbHit σ now uid t).2 = none ∧
    (cbHit σ now uid t).1.lastActionTime = t.lastActionTime ∧
    (cbHit σ now uid t).1.state = t.state ∧
    ((cbHit σ now uid t).1.players.get? t.currentPlayerIndex).map
      TablePlayer.statuses = some p.statuses ∧
    (∀ (σ2 : List Card → List Card) (now2 : Nat) (t2 : GameTable),
      (processTurns σ2 now2 t2).lastActionTime = now2) := by
  have hcpi := lt_of_get?_eq_some hp
  rcases hdc : drawCard σ t.shoe with ⟨c, s, sh⟩
  have hph : (appendCard p c).hand = p.hand ++ [c] := by
    unfold appendCard TablePlayer.hand
    dsimp only
    exact getD_set_self p.hands p.currentHandIndex (p.hand ++ [c]) [] hchi
  have hlt2 : handValue (p.hand ++ [c]) < 21 := by rw [hdc] at hlt; exact hlt
  have hv1 : ¬ 21 < handValue ({ appendCard p c with lastAction := some .hit } : TablePlayer).hand := by
    have : ({ appendCard p c with lastAction := some .hit } : TablePlayer).hand =
        (appendCard p c).hand := rfl
    rw [this, hph]
    omega
  have hv2 : ¬ handValue ({ appendCard p c with lastAction := some .hit } : TablePlayer).hand = 21 := by
    have : ({ appendCard p c with lastAction := some .hit } : TablePlayer).hand =
        (appendCard p c).hand := rfl
    rw [this, hph]
    omega
  simp only [cbHit, hturn, if_true, hp, hdc]
  rw [if_neg hv1, if_neg hv2]
  refine ⟨rfl, rfl, rfl, ?_, processTurns_lastActionTime⟩
  rw [get?_set_self _ _ _ hcpi]
  rfl

theorem hit_below_21_keeps_timestamp_witness :
    (c10Table.players.get? 0 = some c10Player ∧
      isCurrentTurn c10Table 1 = true ∧
      handValue (c10Player.hand ++ [(drawCard id c10Table.shoe).1]) < 21) ∧
    (cbHit id 99 1 c10Table).2 = none ∧
    (cbHit id 99 1 c10Table).1.lastActionTime = 77 :=
  ⟨⟨by decide, by decide, by decide⟩,
    (hit_below_21_keeps_timestamp id 99 1 c10Table c10Player (by decide)
      (by decide) (by decide) (by decide)).1,
    ((hit_below_21_keeps_timestamp id 99 1 c10Table c10Player (by decide)
      (by decide) (by decide) (by decide)).2.1 : _)⟩

/-! ## Turn-order invariant (C7) -/

theorem firstActiveAux_some {l : List HStatus} {n m : Nat}
    (h : firstActiveAux l n = some m) :
    n ≤ m ∧ l.get? (m - n) = some .playing := by
  induction l generalizing n with
  | nil => cases h
  | cons s rest ih =>
    rw [firstActiveAux] at h
    by_cases hs : s == HStatus.playing
    · rw [if_pos hs] at h
      cases h
      have : s = HStatus.playing := by simpa using hs
      simp [this]
    · rw [if_neg hs] at h
      obtain ⟨h1, h2⟩ := ih h
      refine ⟨by omega, ?_⟩
      have hmn : m - n = (m - (n + 1)) + 1 := by omega
      rw [hmn]
      simpa using h2

theorem firstActiveAux_none {l : List HStatus} {n : Nat}
    (h : firstActiveAux l n = none) : ∀ s ∈ l, s ≠ .playing := by
  induction l generalizing n with
  | nil => intro s hs; cases hs
  | cons s rest ih =>
    rw [firstActiveAux] at h
    by_cases hs : s == HStatus.playing
    · rw [if_pos hs] at h; cases h
    · rw [if_neg hs] at h
      intro x hx
      rcases List.mem_cons.mp hx with hx | hx
      · subst hx
        simpa using hs
      · exact ih h x hx

theorem firstActive_spec {p : TablePlayer} {hi : Nat}
    (h : firstActiveHandIndex p = some hi) :
    p.statuses.get? hi = some .playing := by
  have := firstActiveAux_some (l := p.statuses) (n := 0) h
  simpa using this.2

theorem firstActive_none_hasActive {p : TablePlayer}
    (h : firstActiveHandIndex p = none) : hasActiveHand p = false := by
  have hall := firstActiveAux_none (l := p.statuses) (n := 0) h
  rw [hasActiveHand, List.any_eq_false]
  intro s hs
  simpa using hall s hs

theorem hasActive_firstActive {p : TablePlayer}
    (h : hasActiveHand p = false) : firstActiveHandIndex p = none := by
  cases hfa : firstActiveHandIndex p with
  | none => rfl
  | some hi =>
    have hpl := firstActive_spec hfa
    rw [hasActiveHand, List.any_eq_false] at h
    have := h HStatus.playing (List.get?_mem hpl)
    simp at this

theorem findTurnFuel_some {fuel : Nat} {ps : List TablePlayer}
    {i j hi : Nat} {p : TablePlayer}
    (h : findTurnFuel fuel ps i = some (j, p, hi)) :
    i ≤ j ∧ ps.get? j = some p ∧ firstActiveHandIndex p = some hi ∧
    ∀ k q, i ≤ k → k < j → ps.get? k = some q → hasActiveHand q = false := by
  induction fuel generalizing i with
  | zero => cases h
  | succ fuel ih =>
    rw [findTurnFuel] at h
    cases hp : ps.get? i with
    | none => rw [hp] at h; cases h
    | some p0 =>
      rw [hp] at h
      dsimp only at h
      cases hfa : firstActiveHandIndex p0 with
      | some hi0 =>
        rw [hfa] at h
        cases h
        exact ⟨Nat.le_refl _, hp, hfa, fun k q hk1 hk2 _ => absurd hk1 (by omega)⟩
      | none =>
        rw [hfa] at h
        obtain ⟨h1, h2, h3, h4⟩ := ih h
        refine ⟨by omega, h2, h3, ?_⟩
        intro k q hk1 hk2 hkq
        rcases Nat.eq_or_lt_of_le hk1 with hk | hk
        · subst hk
          rw [hp] at hkq
          cases hkq
          exact firstActive_none_hasActive hfa
        · exact h4 k q hk hk2 hkq

theorem findTurnFuel_none {fuel : Nat} {ps : List TablePlayer} {i : Nat}
    (hfuel : ps.length ≤ fuel + i) (h : findTurnFuel fuel ps i = none) :
    ∀ k q, i ≤ k → ps.get? k = some q → hasActiveHand q = false := by
  induction fuel generalizing i with
  | zero =>
    intro k q hk hkq
    have := lt_of_get?_eq_some hkq
    omega
  | succ fuel ih =>
    rw [findTurnFuel] at h
    cases hp : ps.get? i with
    | none =>
      intro k q hk hkq
      have hklt := lt_of_get?_eq_some hkq
      have hilt : ps.length ≤ i := by
        by_contra hcon
        rw [List.get?_eq_none] at hp
        omega
      omega
    | some p0 =>
      rw [hp] at h
      dsimp only at h
      cases hfa : firstActiveHandIndex p0 with
      | some hi0 => rw [hfa] at h; cases h
      | none =>
        rw [hfa] at h
        intro k q hk hkq
        rcases Nat.eq_or_lt_of_le hk with hkeq | hklt
        · subst hkeq
          rw [hp] at hkq
          cases hkq
          exact firstActive_none_hasActive hfa
        · exact ih (by omega) h k q hklt hkq

theorem playDealer_players (σ : List Card → List Card) (t : GameTable) :
    (playDealer σ t).players = t.players := rfl

theorem playDealer_state (σ : List Card → List Card) (t : GameTable) :
    (playDealer σ t).state = .finished := rfl

theorem playDealer_cpi (σ : List Card → List Card) (t : GameTable) :
    (playDealer σ t).currentPlayerIndex = t.currentPlayerIndex := rfl

theorem terminal_of_not_waiting_playing {s : HStatus}
    (h1 : s ≠ .waiting) (h2 : s ≠ .playing) : Terminal s := by
  cases s
  · exact absurd rfl h1
  · exact absurd rfl h2
  · exact Or.inl rfl
  · exact Or.inr (Or.inl rfl)
  · exact Or.inr (Or.inr rfl)

theorem hasActive_false_not_playing {q : TablePlayer}
    (h : hasActiveHand q = false) : ∀ s ∈ q.statuses, s ≠ .playing := by
  rw [hasActiveHand, List.any_eq_false] at h
  intro s hs
  simpa using h s hs

theorem processTurns_inv (σ : List Card → List Card) (now : Nat)
    (t : GameTable)
    (hstate : t.state = .player_turn)
    (hnw : noWaiting t)
    (hprev : ∀ j q, j < t.currentPlayerIndex →
      t.players.get? j = some q → hasActiveHand q = false) :
    Inv (processTurns σ now t) := by
  unfold processTurns updateActivity
  dsimp only
  cases hft : findTurn t.players t.currentPlayerIndex with
  | some r =>
    rcases r with ⟨j, p, hi⟩
    rw [findTurn] at hft
    obtain ⟨hij, hpj, hfa, hmid⟩ := findTurnFuel_some hft
    have hjlt := lt_of_get?_eq_some hpj
    dsimp only
    refine ⟨Or.inl hstate, ?_, fun _ => ?_, fun hfin => ?_⟩
    · intro q hq s hs
      rcases List.mem_or_eq_of_mem_set hq with hq | hq
      · exact hnw q hq s hs
      · subst hq
        exact hnw p (List.get?_mem hpj) s hs
    · refine ⟨{ p with currentHandIndex := hi }, ?_, ?_, ?_⟩
      · exact get?_set_self t.players j _ hjlt
      · exact firstActive_spec hfa
      · intro k q hk hkq
        have hk0 : k < j := by simpa using hk
        have hkq0 : (t.players.set j { p with currentHandIndex := hi }).get? k =
            some q := by simpa using hkq
        rw [get?_set_other t.players _ (by omega : j ≠ k)] at hkq0
        rcases Nat.lt_or_ge k t.currentPlayerIndex with hk2 | hk2
        · exact hprev k q hk2 hkq0
        · exact hmid k q hk2 hk0 hkq0
    · rw [hstate] at hfin
      cases hfin
  | none =>
    rw [findTurn] at hft
    dsimp only
    refine ⟨Or.inr (playDealer_state _ _), ?_, fun hpt => ?_, fun _ => ⟨?_, ?_⟩⟩
    · intro q hq s hs
      rw [playDealer_players] at hq
      exact hnw q hq s hs
    · rw [playDealer_state] at hpt
      cases hpt
    · rw [playDealer_players, playDealer_cpi]
    · intro q hq s hs
      rw [playDealer_players] at hq
      obtain ⟨k, hk⟩ := List.mem_iff_get?.mp hq
      have hact : hasActiveHand q = false := by
        rcases Nat.lt_or_ge k t.currentPlayerIndex with hk2 | hk2
        · exact hprev k q hk2 hk
        · exact findTurnFuel_none (by omega) hft k q hk2 hk
      exact terminal_of_not_waiting_playing (hnw q hq s hs)
        (hasActive_false_not_playing hact s hs)

theorem advanceAfter_inv (σ : List Card → List Card) (now : Nat)
    (t : GameTable) (p2 : TablePlayer)
    (hstate : t.state = .player_turn)
    (hnw : noWaiting t)
    (hcpi : t.currentPlayerIndex < t.players.length)
    (hprev : ∀ j q, j < t.currentPlayerIndex →
      t.players.get? j = some q → hasActiveHand q = false)
    (hp2 : ∀ s ∈ p2.statuses, s ≠ .waiting) :
    Inv (advanceAfter σ now t p2) := by
  unfold advanceAfter
  cases hfa : firstActiveHandIndex p2 with
  | some i =>
    dsimp only
    refine ⟨Or.inl hstate, ?_, fun _ => ?_, fun hfin => ?_⟩
    · intro q hq s hs
      rcases List.mem_or_eq_of_mem_set hq with hq | hq
      · exact hnw q hq s hs
      · subst hq
        exact hp2 s hs
    · refine ⟨{ p2 with currentHandIndex := i }, ?_, ?_, ?_⟩
      · exact get?_set_self t.players _ _ hcpi
      · exact firstActive_spec hfa
      · intro k q hk hkq
        have hk0 : k < t.currentPlayerIndex := by simpa using hk
        have hkq0 : (t.players.set t.currentPlayerIndex
            { p2 with currentHandIndex := i }).get? k = some q := by
          simpa using hkq
        rw [get?_set_other t.players _ (by omega : t.currentPlayerIndex ≠ k)] at hkq0
        exact hprev k q hk0 hkq0
    · rw [hstate] at hfin
      cases hfin
  | none =>
    dsimp only
    apply processTurns_inv
    · exact hstate
    · intro q hq s hs
      rcases List.mem_or_eq_of_mem_set hq with hq | hq
      · exact hnw q hq s hs
      · subst hq
        exact hp2 s hs
    · intro j q hj hjq
      have hj0 : j < t.currentPlayerIndex := by simpa using hj
      have hjq0 : (t.players.set t.currentPlayerIndex p2).get? j = some q := by
        simpa using hjq
      rw [get?_set_other t.players _ (by omega : t.currentPlayerIndex ≠ j)] at hjq0
      exact hprev j q hj0 hjq0

theorem inv_at_pointer {t : GameTable} {p : TablePlayer} (hinv : Inv t)
    (hp : t.players.get? t.currentPlayerIndex = some p) :
    t.state = .player_turn ∧
    p.statuses.get? p.currentHandIndex = some .playing ∧
    (∀ j q, j < t.currentPlayerIndex → t.players.get? j = some q →
      hasActiveHand q = false) ∧
    t.currentPlayerIndex < t.players.length ∧
    (∀ s ∈ p.statuses, s ≠ .waiting) := by
  obtain ⟨hst, hnw, hptr, hfin⟩ := hinv
  have hlt := lt_of_get?_eq_some hp
  have hstate : t.state = .player_turn := by
    rcases hst with h | h
    · exact h
    · have := (hfin h).1
      omega
  obtain ⟨p2, hp2, hplay, hprev⟩ := hptr hstate
  rw [hp] at hp2
  cases hp2
  exact ⟨hstate, hplay, hprev, hlt, fun s hs => hnw p (List.get?_mem hp) s hs⟩

theorem setStatus_no_waiting {p : TablePlayer} {v : HStatus}
    (hnw : ∀ s ∈ p.statuses, s ≠ .waiting) (hv : v ≠ .waiting) :
    ∀ s ∈ (setStatus p v).statuses, s ≠ .waiting := by
  intro s hs
  simp only [setStatus] at hs
  rcases List.mem_or_eq_of_mem_set hs with hs | hs
  · exact hnw s hs
  · subst hs
    exact hv

theorem set_current_inv {t : GameTable} {p1 : TablePlayer}
    (hstate : t.state = .player_turn)
    (hnw : noWaiting t)
    (hcpi : t.currentPlayerIndex < t.players.length)
    (hprev : ∀ j q, j < t.currentPlayerIndex → t.players.get? j = some q →
      hasActiveHand q = false)
    (hp1nw : ∀ s ∈ p1.statuses, s ≠ .waiting)
    (hp1play : p1.statuses.get? p1.currentHandIndex = some .playing) :
    Inv { t with players := t.players.set t.currentPlayerIndex p1 } := by
  refine ⟨Or.inl hstate, ?_, fun _ => ?_, fun hfin => ?_⟩
  · intro q hq s hs
    rcases List.mem_or_eq_of_mem_set hq with hq | hq
    · exact hnw q hq s hs
    · subst hq
      exact hp1nw s hs
  · refine ⟨p1, get?_set_self t.players _ _ hcpi, hp1play, ?_⟩
    intro k q hk hkq
    have hk0 : k < t.currentPlayerIndex := by simpa using hk
    have hkq0 : (t.players.set t.currentPlayerIndex p1).get? k = some q := by
      simpa using hkq
    rw [get?_set_other t.players _ (by omega : t.currentPlayerIndex ≠ k)] at hkq0
    exact hprev k q hk0 hkq0
  · have : t.state = .finished := hfin
    rw [hstate] at this
    cases this

theorem step_inv {t t' : GameTable} (hstep : Step t t') (hinv : Inv t) :
    Inv t' := by
  cases hstep with
  | hit σ now uid t =>
    by_cases hg : isCurrentTurn t uid
    · cases hp : t.players.get? t.currentPlayerIndex with
      | none =>
        have hp2 : t.players[t.currentPlayerIndex]? = none := by
          rw [← List.get?_eq_getElem?]
          exact hp
        simpa [cbHit, hg, hp2] using hinv
      | some p =>
        obtain ⟨hstate, hplay, hprev, hcpi, hpnw⟩ := inv_at_pointer hinv hp
        have hnw := hinv.2.1
        rcases hdc : drawCard σ t.shoe with ⟨c, s, sh⟩
        simp only [cbHit, hg, if_true, hp, hdc]
        split_ifs with hv1 hv2
        · exact advanceAfter_inv σ now _ _ hstate hnw hcpi hprev
            (setStatus_no_waiting hpnw (by simp))
        · exact advanceAfter_inv σ now _ _ hstate hnw hcpi hprev
            (setStatus_no_waiting hpnw (by simp))
        · exact set_current_inv hstate hnw hcpi hprev hpnw hplay
    · simpa [cbHit, hg] using hinv
  | stand σ now uid t =>
    by_cases hg : isCurrentTurn t uid
    · cases hp : t.players.get? t.currentPlayerIndex with
      | none =>
        have hp2 : t.players[t.currentPlayerIndex]? = none := by
          rw [← List.get?_eq_getElem?]
          exact hp
        simpa [cbStand, hg, hp2] using hinv
      | some p =>
        obtain ⟨hstate, hplay, hprev, hcpi, hpnw⟩ := inv_at_pointer hinv hp
        have hnw := hinv.2.1
        simp only [cbStand, hg, if_true, hp]
        exact advanceAfter_inv σ now _ _ hstate hnw hcpi hprev
          (setStatus_no_waiting hpnw (by simp))
    · simpa [cbStand, hg] using hinv
  | double σ now uid bal t =>
    by_cases hg : isCurrentTurn t uid
    · cases hp : t.players.get? t.currentPlayerIndex with
      | none =>
        have hp2 : t.players[t.currentPlayerIndex]? = none := by
          rw [← List.get?_eq_getElem?]
          exact hp
        simpa [cbDouble, hg, hp2] using hinv
      | some p =>
        obtain ⟨hstate, hplay, hprev, hcpi, hpnw⟩ := inv_at_pointer hinv hp
        have hnw := hinv.2.1
        rcases hdc : drawCard σ t.shoe with ⟨c, s, sh⟩
        simp only [cbDouble, hg, if_true, hp, hdc]
        split_ifs with hb hv
        · exact hinv
        · exact advanceAfter_inv σ now _ _ hstate hnw hcpi hprev
            (setStatus_no_waiting hpnw (by simp))
        · exact advanceAfter_inv σ now _ _ hstate hnw hcpi hprev
            (setStatus_no_waiting hpnw (by simp))
    · simpa [cbDouble, hg] using hinv
  | split σ uid bal t =>
    by_cases hg : isCurrentTurn t uid
    · cases hp : t.players.get? t.currentPlayerIndex with
      | none =>
        have hp2 : t.players[t.currentPlayerIndex]? = none := by
          rw [← List.get?_eq_getElem?]
          exact hp
        simpa [cbSplit, hg, hp2] using hinv
      | some p =>
        obtain ⟨hstate, hplay, hprev, hcpi, hpnw⟩ := inv_at_pointer hinv hp
        have hnw := hinv.2.1
        rcases hdc : drawCard σ t.shoe with ⟨c, s, sh⟩
        simp only [cbSplit, hg, if_true, hp, hdc]
        split
        · split_ifs with he hb
          · exact hinv
          · refine set_current_inv hstate hnw hcpi hprev ?_ rfl
            intro s2 hs2
            have hs3 : s2 ∈ ([HStatus.playing, HStatus.playing] : List HStatus) := hs2
            have hs4 : s2 = HStatus.playing := by
              rcases List.mem_cons.mp hs3 with h | h
              · exact h
              · simpa using h
            simp [hs4]
          · exact hinv
        · exact hinv
    · simpa [cbSplit, hg] using hinv
  | timeout σ now t =>
    unfold timeoutSweep
    split_ifs with hc
    · cases hp : t.players.get? t.currentPlayerIndex with
      | none => exact hinv
      | some p =>
        obtain ⟨hstate, hplay, hprev, hcpi, hpnw⟩ := inv_at_pointer hinv hp
        have hnw := hinv.2.1
        dsimp only
        apply processTurns_inv
        · exact hstate
        · intro q hq s hs
          have hq0 : q ∈ t.players.set t.currentPlayerIndex
              { setStatus p .stand with lastAction := some .stand } := by
            simpa using hq
          rcases List.mem_or_eq_of_mem_set hq0 with hq1 | hq1
          · exact hnw q hq1 s hs
          · subst hq1
            exact setStatus_no_waiting hpnw (by simp) s hs
        · intro j q hj hjq
          have hj0 : j < t.currentPlayerIndex := by simpa using hj
          have hjq0 : (t.players.set t.currentPlayerIndex
              { setStatus p .stand with lastAction := some .stand }).get? j =
              some q := by simpa using hjq
          rw [get?_set_other t.players _
            (by omega : t.currentPlayerIndex ≠ j)] at hjq0
          exact hprev j q hj0 hjq0
    · exact hinv

theorem dealPlayers_no_waiting (σ : List Card → List Card)
    (ps : List TablePlayer) (shoe : List Card) (alert : Bool) :
    ∀ q ∈ (dealPlayers σ ps shoe alert).1, ∀ s ∈ q.statuses, s ≠ .waiting := by
  induction ps generalizing shoe alert with
  | nil =>
    intro q hq
    cases hq
  | cons p rest ih =>
    intro q hq s hs
    rcases hd1 : drawCard σ shoe with ⟨c1, s1, sh1⟩
    rcases hd2 : drawCard σ sh1 with ⟨c2, s2, sh2⟩
    rw [dealPlayers, hd1] at hq
    dsimp only at hq
    rw [hd2] at hq
    dsimp only at hq
    rcases hd3 : dealPlayers σ rest sh2 (alert || s1 || s2) with ⟨rest2, sh3, al3⟩
    rw [hd3] at hq
    dsimp only at hq
    rcases List.mem_cons.mp hq with hq1 | hq1
    · subst hq1
      have hs2 : s ∈ [if handValue [c1, c2] = 21 then HStatus.blackjack
          else HStatus.playing] := hs
      have hs3 := List.mem_singleton.mp hs2
      subst hs3
      split_ifs <;> simp
    · have := ih sh2 (alert || s1 || s2)
      rw [hd3] at this
      exact this q hq1 s hs

theorem startGame_inv (σ : List Card → List Card) (now : Nat)
    (t : GameTable) : Inv (startGame σ now t) := by
  unfold startGame
  rcases hd1 : drawCard σ t.shoe with ⟨c1, s1, sh1⟩
  dsimp only
  rcases hd2 : drawCard σ sh1 with ⟨c2, s2, sh2⟩
  dsimp only
  rcases hd3 : dealPlayers σ t.players sh2 (false || s1 || s2) with ⟨ps, sh3, al3⟩
  dsimp only
  apply processTurns_inv
  · rfl
  · intro q hq s hs
    have hq2 : q ∈ ps := hq
    have hall := dealPlayers_no_waiting σ t.players sh2 (false || s1 || s2)
    rw [hd3] at hall
    exact hall q hq2 s hs
  · intro j q hj _
    simp at hj

theorem reach_inv (σ0 : List Card → List Card) (now0 : Nat) (t0 t : GameTable)
    (h : Relation.ReflTransGen Step (startGame σ0 now0 t0) t) : Inv t := by
  induction h with
  | refl => exact startGame_inv σ0 now0 t0
  | tail hab hbc ih => exact step_inv hbc ih

/-- C7: in any table state reachable from `start_game` by game commands and
timeout sweeps, while the round is in `player_turn` the turn pointer rests
on a hand whose status is `playing` (so it never returns to an
already-terminal hand), and once the table has left `player_turn` — dealer
play having been entered through `process_turns` only when no seat holds an
active hand, after which `play_dealer` touches no player hand — every hand
of every seated player, across all seats and splits, carries a terminal
status (`stand`, `bust` or `blackjack`). -/
theorem turn_pointer_invariant (σ0 : List Card → List Card) (now0 : Nat)
    (t0 t : GameTable)
    (h : Relation.ReflTransGen Step (startGame σ0 now0 t0) t) :
    (t.state = .player_turn →
      ∃ p, t.players.get? t.currentPlayerIndex = some p ∧
        p.statuses.get? p.currentHandIndex = some .playing) ∧
    ((t.state = .dealer_turn ∨ t.state = .finished) →
      ∀ p ∈ t.players, ∀ s ∈ p.statuses,
        s = .stand ∨ s = .bust ∨ s = .blackjack) := by
  obtain ⟨hst, hnw, hptr, hfin⟩ := reach_inv σ0 now0 t0 t h
  constructor
  · intro hpt
    obtain ⟨p, hp, hplay, _⟩ := hptr hpt
    exact ⟨p, hp, hplay⟩
  · intro hd
    rcases hd with hd | hd
    · rcases hst with h1 | h1 <;> rw [hd] at h1 <;> cases h1
    · exact fun p hp s hs => (hfin hd).2 p hp s hs

/-- Witness for `turn_pointer_invariant` at the freshly started C2 fixture
round. -/
theorem turn_pointer_invariant_witness :
    ((startGame id 0 c2Table0).state = .player_turn →
      ∃ p, (startGame id 0 c2Table0).players.get?
          (startGame id 0 c2Table0).currentPlayerIndex = some p ∧
        p.statuses.get? p.currentHandIndex = some .playing) ∧
    (((startGame id 0 c2Table0).state = .dealer_turn ∨
        (startGame id 0 c2Table0).state = .finished) →
      ∀ p ∈ (startGame id 0 c2Table0).players, ∀ s ∈ p.statuses,
        s = .stand ∨ s = .bust ∨ s = .blackjack) :=
  turn_pointer_invariant id 0 c2Table0 (startGame id 0 c2Table0)
    Relation.ReflTransGen.refl

end Blackjack
